import Mathlib

/-
Formal model of the calendar heatmap program (src/calendar_heatmap.py, with
the variant color-stop list of src/calendar_heatmap_test.py).

The embedding follows the source:
* the Gregorian month layout produced by
  calendar.Calendar(firstweekday=0).monthdayscalendar(year, month),
* the cell-construction loop of draw_calendar (skip day == 0, skip
  day_idx >= 5, look the ISO date string up in the month slice),
* the diverging colormaps (LinearSegmentedColormap with N = 256: the
  lookup table holds the piecewise-linear ramp sampled at the positions
  i / 255 for i = 0..255, a float input t is looked up at table index
  floor(256 t) clamped to [0, 255], and inputs outside [0, 1] take the
  default under/over colors, which are the first and last table entries),
* matplotlib.colors.Normalize (no clipping),
* the month list, the 4-column panel layout, the average line and the
  empty-download guard of the main execution block.

Numeric values are modelled as exact rationals.
-/

attribute [local semireducible] Rat.mul Rat.inv Rat.add Rat.sub Rat.ofScientific

/-- Leap year by the proleptic Gregorian rule (Python calendar.isleap). -/
def isLeap (y : ℕ) : Bool := y % 4 == 0 && (y % 100 != 0 || y % 400 == 0)

/-- Number of days in month m of year y (Python calendar.monthrange). -/
def daysInMonth (y m : ℕ) : ℕ :=
  if m = 2 then (if isLeap y then 29 else 28)
  else if m = 4 ∨ m = 6 ∨ m = 9 ∨ m = 11 then 30
  else 31

/-- Days in all years before year y (CPython datetime, days before year). -/
def daysBeforeYear (y : ℕ) : ℕ :=
  (y - 1) * 365 + (y - 1) / 4 - (y - 1) / 100 + (y - 1) / 400

/-- Days of year y lying in months strictly before month m. -/
def daysBeforeMonth (y m : ℕ) : ℕ :=
  ((List.range (m - 1)).map (fun i => daysInMonth y (i + 1))).sum

/-- Proleptic Gregorian ordinal of a date; 0001-01-01 has ordinal 1. -/
def toOrdinal (y m d : ℕ) : ℕ := daysBeforeYear y + daysBeforeMonth y m + d

/-- Weekday with Monday = 0 (CPython date.weekday). -/
def weekday (y m d : ℕ) : ℕ := (toOrdinal y m d + 6) % 7

/-- Weekday of the first day of the month (day1 of calendar.monthrange). -/
def firstWeekday (y m : ℕ) : ℕ := weekday y m 1

/-- Flat day list of Calendar.itermonthdays with firstweekday = 0:
leading padding zeros, the day numbers 1..n, trailing padding zeros. -/
def itermonthdays (y m : ℕ) : List ℕ :=
  List.replicate (firstWeekday y m) 0 ++
    (List.range (daysInMonth y m)).map (· + 1) ++
    List.replicate ((7 - (firstWeekday y m + daysInMonth y m) % 7) % 7) 0

/-- Week rows of Calendar.monthdayscalendar: the flat day list cut into
rows of seven (the flat list length is always a multiple of seven). -/
def monthdayscalendar (y m : ℕ) : List (List ℕ) :=
  (List.range ((itermonthdays y m).length / 7)).map
    (fun w => ((itermonthdays y m).drop (7 * w)).take 7)

/-- Number of week rows of the month layout. -/
def monthWeeks (y m : ℕ) : ℕ := (firstWeekday y m + daysInMonth y m + 6) / 7

/-- The day number sitting at flat position p of the padded month layout
(0 for the padding positions). -/
def slot (y m p : ℕ) : ℕ :=
  if firstWeekday y m ≤ p ∧ p < firstWeekday y m + daysInMonth y m then
    p - firstWeekday y m + 1
  else 0

/-- RETURN_MIN of the source. -/
def retMin : ℚ := -5

/-- RETURN_MAX of the source. -/
def retMax : ℚ := 5

/-- matplotlib.colors.Normalize(vmin, vmax) applied to a value (no clip). -/
def normVal (v : ℚ) : ℚ := (v - retMin) / (retMax - retMin)

/-- An RGB color with channels as exact rationals in [0, 1]. -/
structure Color where
  r : ℚ
  g : ℚ
  b : ℚ
deriving DecidableEq

/-- Piecewise-linear evaluation of one channel of a LinearSegmentedColormap
from its anchor list (x, y0, y1): between consecutive anchors the color is
interpolated from the left anchor's y1 to the right anchor's y0. -/
def interpSegs : List (ℚ × ℚ × ℚ) → ℚ → ℚ
  | [], _ => 0
  | [(_, _, y1)], _ => y1
  | (x1, _, y1) :: (x2, y0, y2) :: rest, t =>
    if t ≤ x2 then y1 + (y0 - y1) * (t - x1) / (x2 - x1)
    else interpSegs ((x2, y0, y2) :: rest) t

/-- The lookup-table index matplotlib uses for a scalar float input to an
N = 256 colormap: floor(256 t), with t = 1 landing on index 255, inputs
below 0 taking the under index and inputs above 1 the over index, whose
default colors are the first and last table entries — so the index is
floor(256 t) clamped to [0, 255]. -/
def lutIndex (t : ℚ) : ℕ := min 255 (max 0 ⌊256 * t⌋).toNat

/-- The lookup-table position of a colormap input: matplotlib fills table
entry i with the piecewise-linear ramp evaluated at i / (N - 1). -/
def lutPos (t : ℚ) : ℚ := (lutIndex t : ℚ) / 255

/-- The red channel anchors of cdict in calendar_heatmap.py. -/
def cdictRed : List (ℚ × ℚ × ℚ) := [(0.0, 0.55, 0.55), (0.5, 1.0, 1.0), (1.0, 0.0, 0.0)]

/-- The green channel anchors of cdict in calendar_heatmap.py. -/
def cdictGreen : List (ℚ × ℚ × ℚ) := [(0.0, 0.0, 0.0), (0.5, 1.0, 1.0), (1.0, 0.55, 0.55)]

/-- The blue channel anchors of cdict in calendar_heatmap.py. -/
def cdictBlue : List (ℚ × ℚ × ℚ) := [(0.0, 0.0, 0.0), (0.5, 1.0, 1.0), (1.0, 0.0, 0.0)]

/-- heatmap_cmap of calendar_heatmap.py applied to a scalar: the N = 256
lookup table entry for t, each entry holding the channel ramps sampled at
position index / 255. -/
def heatmapCmap (t : ℚ) : Color :=
  { r := interpSegs cdictRed (lutPos t)
    g := interpSegs cdictGreen (lutPos t)
    b := interpSegs cdictBlue (lutPos t) }

/-- Red channel anchors of the from_list stops of calendar_heatmap_test.py:
hex stops #8B0000, #FF6347, #FFFFFF, #90EE90, #006400 at 0, 0.4, 0.5, 0.6, 1. -/
def stopsRed : List (ℚ × ℚ × ℚ) :=
  [(0.0, 139/255, 139/255), (0.4, 1.0, 1.0), (0.5, 1.0, 1.0),
   (0.6, 144/255, 144/255), (1.0, 0.0, 0.0)]

/-- Green channel anchors of the from_list stops of calendar_heatmap_test.py. -/
def stopsGreen : List (ℚ × ℚ × ℚ) :=
  [(0.0, 0.0, 0.0), (0.4, 99/255, 99/255), (0.5, 1.0, 1.0),
   (0.6, 238/255, 238/255), (1.0, 100/255, 100/255)]

/-- Blue channel anchors of the from_list stops of calendar_heatmap_test.py. -/
def stopsBlue : List (ℚ × ℚ × ℚ) :=
  [(0.0, 0.0, 0.0), (0.4, 71/255, 71/255), (0.5, 1.0, 1.0),
   (0.6, 144/255, 144/255), (1.0, 0.0, 0.0)]

/-- The custom_green_red colormap of calendar_heatmap_test.py applied to
a scalar, through the same N = 256 lookup table. -/
def customCmap (t : ℚ) : Color :=
  { r := interpSegs stopsRed (lutPos t)
    g := interpSegs stopsGreen (lutPos t)
    b := interpSegs stopsBlue (lutPos t) }

/-- The color a value is shaded with in calendar_heatmap.py: cmap(norm(val)). -/
def mapColor (v : ℚ) : Color := heatmapCmap (normVal v)

/-- Zero-padded two-digit rendering of a small natural number ({:02d}). -/
def pad2 (n : ℕ) : String := if n < 10 then "0" ++ toString n else toString n

/-- The ISO date string f"{year}-{month:02d}-{day:02d}" of draw_calendar,
which is also the strftime %Y-%m-%d index format for four-digit years. -/
def dateStr (y m d : ℕ) : String :=
  toString y ++ "-" ++ pad2 m ++ "-" ++ pad2 d

/-- Python {:.2f} formatting of an exact rational: round to hundredths
(ties to even, which is what float formatting does on exact halves)
and print with two decimals. -/
def round2 (v : ℚ) : ℤ :=
  let s := v * 100
  let fl := ⌊s⌋
  let fr := s - fl
  if fr < 1/2 then fl
  else if 1/2 < fr then fl + 1
  else if fl % 2 = 0 then fl else fl + 1

/-- Two-decimal rendering of a rational, as f"{v:.2f}". -/
def fmt2 (v : ℚ) : String :=
  let n := round2 v
  let a := n.natAbs
  (if n < 0 then "-" else "") ++ toString (a / 100) ++ "." ++ pad2 (a % 100)

/-- calendar.month_name of Python for months 1..12. -/
def monthName : ℕ → String
  | 1 => "January" | 2 => "February" | 3 => "March" | 4 => "April"
  | 5 => "May" | 6 => "June" | 7 => "July" | 8 => "August"
  | 9 => "September" | 10 => "October" | 11 => "November" | 12 => "December"
  | _ => ""

/-- A facecolor: either a matplotlib named color string or an RGB value. -/
inductive ColorSpec where
  | named (s : String)
  | rgb (c : Color)
deriving DecidableEq

/-- One drawn day cell of draw_calendar: its week row, weekday column,
day number, looked-up value (none when the date has no data), facecolor
and text label. -/
structure Cell where
  week : ℕ
  col : ℕ
  day : ℕ
  value : Option ℚ
  color : ColorSpec
  label : String
deriving DecidableEq

/-- The cell draw_calendar builds for a retained slot: look the ISO date
string up in the month frame; found gives value, cmap(norm(val)) facecolor
and the f"{day}\n{val:.2f}%" label, not found gives a white no-data cell
with an empty label. -/
def mkCell (y m : ℕ) (assoc : List (String × ℚ)) (wIdx dIdx day : ℕ) : Cell :=
  match assoc.lookup (dateStr y m day) with
  | some v =>
    { week := wIdx, col := dIdx, day := day, value := some v
      color := .rgb (mapColor v)
      label := toString day ++ "\n" ++ fmt2 v ++ "%" }
  | none =>
    { week := wIdx, col := dIdx, day := day, value := none
      color := .named "white", label := "" }

/-- The inner loop of draw_calendar over one week row: day == 0 slots and
columns 5 and 6 (Saturday, Sunday) are skipped, the rest become cells. -/
def buildRow (y m : ℕ) (assoc : List (String × ℚ)) (wIdx : ℕ) :
    ℕ → List ℕ → List Cell
  | _, [] => []
  | dIdx, day :: rest =>
    (if day ≠ 0 ∧ dIdx < 5 then [mkCell y m assoc wIdx dIdx day] else []) ++
      buildRow y m assoc wIdx (dIdx + 1) rest

/-- The outer loop of draw_calendar over the enumerated week rows. -/
def buildWeeks (y m : ℕ) (assoc : List (String × ℚ)) :
    ℕ → List (List ℕ) → List Cell
  | _, [] => []
  | wIdx, week :: rest =>
    buildRow y m assoc wIdx 0 week ++ buildWeeks y m assoc (wIdx + 1) rest

/-- All cells draw_calendar creates for one month panel. -/
def buildCells (y m : ℕ) (assoc : List (String × ℚ)) : List Cell :=
  buildWeeks y m assoc 0 (monthdayscalendar y m)

/-- A calendar date. -/
structure Date where
  year : ℕ
  month : ℕ
  day : ℕ
deriving DecidableEq

/-- The processed return series: one (date, Daily Return %) entry per
trading day, as produced by the excluded ingestion steps. -/
abbrev Series := List (Date × ℚ)

/-- A date of the series is an actual Gregorian calendar date. -/
def validDate (dt : Date) : Prop :=
  1 ≤ dt.month ∧ dt.month ≤ 12 ∧ 1 ≤ dt.day ∧ dt.day ≤ daysInMonth dt.year dt.month

instance (dt : Date) : Decidable (validDate dt) := by
  unfold validDate
  infer_instance

/-- The month slice df_month: the rows whose Date has the given year and
month. -/
def monthSlice (s : Series) (y m : ℕ) : Series :=
  s.filter (fun e => e.1.year == y && e.1.month == m)

/-- The string index of a data frame slice (Date_str index of the source):
each row keyed by its strftime %Y-%m-%d string. -/
def assocOf (df : Series) : List (String × ℚ) :=
  df.map (fun e => (dateStr e.1.year e.1.month e.1.day, e.2))

/-- Strict ascending order on (year, month) pairs. -/
def ymLt (a b : ℕ × ℕ) : Prop := a.1 < b.1 ∨ (a.1 = b.1 ∧ a.2 < b.2)

instance : DecidableRel ymLt := fun a b => by
  unfold ymLt; infer_instance

/-- Insert a (year, month) pair into a strictly sorted list, skipping
duplicates; folding this models Python sorted(set(...)). -/
def insertYM (x : ℕ × ℕ) : List (ℕ × ℕ) → List (ℕ × ℕ)
  | [] => [x]
  | p :: rest =>
    if x = p then p :: rest
    else if ymLt x p then x :: p :: rest
    else p :: insertYM x rest

/-- months = sorted(set((d.year, d.month) for d in data)) of the source. -/
def monthsOf (s : Series) : List (ℕ × ℕ) :=
  s.foldr (fun e acc => insertYM (e.1.year, e.1.month) acc) []

/-- pandas Series.mean of the month slice: not-a-number (none) when the
slice is empty, otherwise the arithmetic mean. -/
def meanOf (df : Series) : Option ℚ :=
  if df.isEmpty then none else some ((df.map (fun e => e.2)).sum / df.length)

/-- Mean of a plain value list, none when empty. -/
def meanOfVals (l : List ℚ) : Option ℚ :=
  if l.isEmpty then none else some (l.sum / l.length)

/-- The aggregate line under a panel: f"Avg Daily Return:\n{avg:.2f}%",
where an empty slice's NaN mean prints as nan. -/
def avgText (df : Series) : String :=
  "Avg Daily Return:" ++ "\n" ++
    (match meanOf df with
     | none => "nan"
     | some v => fmt2 v) ++ "%"

/-- Values actually placed in a panel's cells (the non-missing values). -/
def cellValuesOf (cells : List Cell) : List ℚ := cells.filterMap (fun c => c.value)

/-- Number of populated cells carrying day number d of date dt across the
full set of month grids built for the window: grids are built for each
(year, month) of the months list, and only the grid of the date's own
month can hold its day cell. -/
def popCountDate (s : Series) (dt : Date) : ℕ :=
  ((monthsOf s).map (fun ym =>
    if ym = (dt.year, dt.month) then
      (buildCells ym.1 ym.2 (assocOf (monthSlice s ym.1 ym.2))).countP
        (fun c => c.day == dt.day && c.value.isSome)
    else 0)).sum

/-- A rectangle patch as added by ax.add_patch. -/
structure RectItem where
  x : ℚ
  y : ℚ
  w : ℚ
  h : ℚ
  edge : String
  face : ColorSpec
deriving DecidableEq

/-- A text item as added by ax.text. -/
structure TextItem where
  x : ℚ
  y : ℚ
  s : String
deriving DecidableEq

/-- The state of one matplotlib Axes that draw_calendar touches. -/
structure Axes where
  patchItems : List RectItem
  textItems : List TextItem
  xlim : ℚ × ℚ
  ylim : ℚ × ℚ
  xticks : List ℕ
  xtickLabels : List String
  yticks : List ℕ
  title : String
  axisOn : Bool
deriving DecidableEq

/-- A fresh Axes as produced by plt.subplots. -/
def defaultAxes : Axes :=
  { patchItems := [], textItems := [], xlim := (0, 1), ylim := (0, 1)
    xticks := [], xtickLabels := [], yticks := [], title := "", axisOn := true }

/-- ax.cla(): reset the axes to its initial state. -/
def cla (_ : Axes) : Axes := defaultAxes

/-- The rectangle a cell contributes. -/
def rectOf (c : Cell) : RectItem :=
  { x := c.col, y := -(c.week : ℚ), w := 1, h := 1
    edge := "lightgray", face := c.color }

/-- The text a cell contributes. -/
def textOf (c : Cell) : TextItem :=
  { x := (c.col : ℚ) + 1/2, y := -(c.week : ℚ) + 3/5, s := c.label }

/-- draw_calendar of calendar_heatmap.py: clear the axes, draw one patch
and one text per retained cell, then set limits, ticks, the month title
and turn the axis frame off. -/
def drawCalendar (y m : ℕ) (assoc : List (String × ℚ)) (ax : Axes) : Axes :=
  let cleared := cla ax
  let cells := buildCells y m assoc
  { cleared with
    patchItems := cells.map rectOf
    textItems := cells.map textOf
    xlim := (0, 5)
    ylim := (-((monthdayscalendar y m).length : ℚ), 1/2)
    xticks := [0, 1, 2, 3, 4]
    xtickLabels := ["Mon", "Tue", "Wed", "Thu", "Fri"]
    yticks := []
    title := monthName m ++ " " ++ toString y
    axisOn := false }

/-- One composed month panel: draw_calendar on a fresh subplot axes plus
the aggregate line placed below the grid. -/
def panelFor (s : Series) (ym : ℕ × ℕ) : Axes :=
  let df := monthSlice s ym.1 ym.2
  let ax := drawCalendar ym.1 ym.2 (assocOf df) defaultAxes
  { ax with
    textItems := ax.textItems ++
      [{ x := 5/2, y := -((monthdayscalendar ym.1 ym.2).length : ℚ) - 3/10
         s := avgText df }] }

/-- n_rows = (len(months) + n_cols - 1) // n_cols with n_cols = 4. -/
def nRowsOf (k : ℕ) : ℕ := (k + 4 - 1) / 4

/-- A trailing panel position beyond the last month: only axis('off') is
applied to it. -/
def blankAxes : Axes := { defaultAxes with axisOn := false }

/-- The flattened row-major list of panel axes after the main loop: month
i drawn on flat index i, every flat index past the months turned off. -/
def composeAxes (s : Series) : List Axes :=
  (List.range (nRowsOf (monthsOf s).length * 4)).map (fun i =>
    if i < (monthsOf s).length then panelFor s ((monthsOf s).getD i (0, 0))
    else blankAxes)

/-- The panel at grid position (row r, column c) of the subplot matrix;
flattening a (n_rows, 4) axes array is row-major, so this is flat index
r * 4 + c. -/
def axesMatrix (s : Series) (r c : ℕ) : Axes :=
  (composeAxes s).getD (r * 4 + c) blankAxes

/-- The rendering pass from the downloaded series: an empty download
aborts with the printed message before any month grid or panel is built
(the if data.empty guard), otherwise the full panel list is composed. -/
def renderPass (data : Series) : Except String (List (ℕ × ℕ) × List Axes) :=
  if data.isEmpty then
    Except.error "No data fetched. Check the ticker symbol and try again."
  else
    Except.ok (monthsOf data, composeAxes data)

/-! ## Structural lemmas about the month layout -/

lemma firstWeekday_lt (y m : ℕ) : firstWeekday y m < 7 := by
  unfold firstWeekday weekday
  omega

lemma daysInMonth_pos (y m : ℕ) : 1 ≤ daysInMonth y m := by
  unfold daysInMonth
  split_ifs <;> omega

lemma daysInMonth_le (y m : ℕ) : daysInMonth y m ≤ 31 := by
  unfold daysInMonth
  split_ifs <;> omega

lemma weekday_eq (y m d : ℕ) (hd : 1 ≤ d) :
    weekday y m d = (firstWeekday y m + (d - 1)) % 7 := by
  unfold firstWeekday weekday toOrdinal
  omega

lemma slot_of_lt {y m p : ℕ} (h : p < firstWeekday y m) : slot y m p = 0 := by
  unfold slot
  rw [if_neg]
  omega

lemma slot_of_ge {y m p : ℕ} (h : firstWeekday y m + daysInMonth y m ≤ p) :
    slot y m p = 0 := by
  unfold slot
  rw [if_neg]
  omega

lemma slot_mid {y m p : ℕ} (h1 : firstWeekday y m ≤ p)
    (h2 : p < firstWeekday y m + daysInMonth y m) :
    slot y m p = p - firstWeekday y m + 1 := by
  unfold slot
  rw [if_pos ⟨h1, h2⟩]

lemma itermonthdays_length (y m : ℕ) :
    (itermonthdays y m).length = 7 * monthWeeks y m := by
  unfold itermonthdays monthWeeks
  simp only [List.length_append, List.length_replicate, List.length_map,
    List.length_range]
  omega

lemma itermonthdays_eq (y m : ℕ) :
    itermonthdays y m = (List.range (7 * monthWeeks y m)).map (slot y m) := by
  apply List.ext_getElem
  · rw [itermonthdays_length, List.length_map, List.length_range]
  intro p h1 h2
  rw [List.getElem_map, List.getElem_range]
  unfold itermonthdays at h1 ⊢
  have hlen1 : (List.replicate (firstWeekday y m) 0 ++
      (List.range (daysInMonth y m)).map (· + 1)).length =
      firstWeekday y m + daysInMonth y m := by
    simp
  rcases Nat.lt_or_ge p (firstWeekday y m) with hp | hp
  · rw [List.getElem_append_left (by omega),
      List.getElem_append_left (by simpa using hp),
      List.getElem_replicate, slot_of_lt hp]
  · rcases Nat.lt_or_ge p (firstWeekday y m + daysInMonth y m) with hq | hq
    · rw [List.getElem_append_left (by omega),
        List.getElem_append_right (by simpa using hp),
        List.getElem_map, List.getElem_range, slot_mid hp hq]
      simp
    · rw [List.getElem_append_right (by omega), List.getElem_replicate,
        slot_of_ge hq]

lemma monthdayscalendar_eq (y m : ℕ) :
    monthdayscalendar y m = (List.range (monthWeeks y m)).map
      (fun w => (List.range 7).map (fun i => slot y m (7 * w + i))) := by
  unfold monthdayscalendar
  rw [itermonthdays_length]
  rw [Nat.mul_div_cancel_left _ (by norm_num)]
  apply List.map_congr_left
  intro w hw
  have hwW : w < monthWeeks y m := List.mem_range.mp hw
  apply List.ext_getElem
  · rw [List.length_take, List.length_drop, itermonthdays_length,
      List.length_map, List.length_range]
    omega
  intro i hi1 hi2
  have hii : i < 7 := by
    rw [List.length_map, List.length_range] at hi2
    exact hi2
  rw [List.getElem_take, List.getElem_drop, List.getElem_map, List.getElem_range]
  simp only [itermonthdays_eq y m, List.getElem_map, List.getElem_range]

lemma monthdayscalendar_length (y m : ℕ) :
    (monthdayscalendar y m).length = monthWeeks y m := by
  rw [monthdayscalendar_eq, List.length_map, List.length_range]

/-! ## From the drawing loops to a flat cell characterization -/

lemma mkCell_week (y m : ℕ) (a : List (String × ℚ)) (w i d : ℕ) :
    (mkCell y m a w i d).week = w := by
  unfold mkCell
  cases h : a.lookup (dateStr y m d) <;> simp

lemma mkCell_col (y m : ℕ) (a : List (String × ℚ)) (w i d : ℕ) :
    (mkCell y m a w i d).col = i := by
  unfold mkCell
  cases h : a.lookup (dateStr y m d) <;> simp

lemma mkCell_day (y m : ℕ) (a : List (String × ℚ)) (w i d : ℕ) :
    (mkCell y m a w i d).day = d := by
  unfold mkCell
  cases h : a.lookup (dateStr y m d) <;> simp

lemma mkCell_value (y m : ℕ) (a : List (String × ℚ)) (w i d : ℕ) :
    (mkCell y m a w i d).value = a.lookup (dateStr y m d) := by
  unfold mkCell
  cases h : a.lookup (dateStr y m d) <;> simp

lemma mkCell_of_lookup_some {y m : ℕ} {a : List (String × ℚ)} {d : ℕ} {v : ℚ}
    (w i : ℕ) (h : a.lookup (dateStr y m d) = some v) :
    mkCell y m a w i d =
      { week := w, col := i, day := d, value := some v
        color := .rgb (mapColor v)
        label := toString d ++ "\n" ++ fmt2 v ++ "%" } := by
  unfold mkCell
  rw [h]

lemma mkCell_of_lookup_none {y m : ℕ} {a : List (String × ℚ)} {d : ℕ}
    (w i : ℕ) (h : a.lookup (dateStr y m d) = none) :
    mkCell y m a w i d =
      { week := w, col := i, day := d, value := none
        color := .named "white", label := "" } := by
  unfold mkCell
  rw [h]

lemma buildRow_eq_general (y m : ℕ) (a : List (String × ℚ)) (w : ℕ) :
    ∀ (days : List ℕ) (j : ℕ),
      buildRow y m a w j days =
        (List.range days.length).filterMap
          (fun k => if days.getD k 0 ≠ 0 ∧ j + k < 5 then
              some (mkCell y m a w (j + k) (days.getD k 0)) else none) := by
  intro days
  induction days with
  | nil => intro j; rfl
  | cons d rest ih =>
    intro j
    rw [List.length_cons, List.range_succ_eq_map, List.filterMap_cons,
      List.filterMap_map]
    have htail : List.filterMap
        ((fun k => if (d :: rest).getD k 0 ≠ 0 ∧ j + k < 5 then
            some (mkCell y m a w (j + k) ((d :: rest).getD k 0)) else none) ∘ Nat.succ)
        (List.range rest.length) =
        buildRow y m a w (j + 1) rest := by
      rw [ih (j + 1)]
      apply List.filterMap_congr
      intro k _
      simp only [Function.comp]
      have hk : (d :: rest).getD (Nat.succ k) 0 = rest.getD k 0 := rfl
      have hj : j + Nat.succ k = j + 1 + k := by omega
      rw [hk, hj]
    rw [htail]
    show (if d ≠ 0 ∧ j < 5 then [mkCell y m a w j d] else []) ++
        buildRow y m a w (j + 1) rest = _
    have hhead : (d :: rest).getD 0 0 = d := rfl
    simp only [hhead, Nat.add_zero]
    by_cases hc : d ≠ 0 ∧ j < 5
    · rw [if_pos hc, if_pos hc]
      simp
    · rw [if_neg hc, if_neg hc]
      simp

lemma buildRow_eq_range7 (y m : ℕ) (a : List (String × ℚ)) (w : ℕ) (h : ℕ → ℕ) :
    buildRow y m a w 0 ((List.range 7).map h) =
      (List.range 7).filterMap
        (fun i => if h i ≠ 0 ∧ i < 5 then
            some (mkCell y m a w i (h i)) else none) := by
  rw [buildRow_eq_general]
  rw [List.length_map, List.length_range]
  apply List.filterMap_congr
  intro k hk
  have hk7 : k < 7 := List.mem_range.mp hk
  have hg : ((List.range 7).map h).getD k 0 = h k := by
    rw [List.getD_eq_getElem _ _ (by simpa using hk7), List.getElem_map,
      List.getElem_range]
  rw [hg]
  simp

lemma buildWeeks_eq (y m : ℕ) (a : List (String × ℚ)) :
    ∀ (W : ℕ) (g : ℕ → List ℕ) (w0 : ℕ),
      buildWeeks y m a w0 ((List.range W).map g) =
        ((List.range W).map (fun w => buildRow y m a (w0 + w) 0 (g w))).flatten := by
  intro W
  induction W with
  | zero => intro g w0; rfl
  | succ W ih =>
    intro g w0
    rw [List.range_succ_eq_map, List.map_cons, List.map_map, List.map_cons,
      List.map_map, List.flatten_cons]
    show buildRow y m a w0 0 (g 0) ++
        buildWeeks y m a (w0 + 1) (List.map (g ∘ Nat.succ) (List.range W)) = _
    rw [ih (g ∘ Nat.succ) (w0 + 1)]
    simp only [Nat.add_zero]
    congr 1
    apply congrArg
    apply List.map_congr_left
    intro k _
    simp only [Function.comp]
    have hww : w0 + 1 + k = w0 + Nat.succ k := by omega
    rw [hww]

lemma range_mul_seven : ∀ W : ℕ, List.range (7 * W) =
    ((List.range W).map (fun w => (List.range 7).map (fun i => 7 * w + i))).flatten := by
  intro W
  induction W with
  | zero => rfl
  | succ W ih =>
    have h7 : 7 * (W + 1) = 7 * W + 7 := by ring
    rw [h7, List.range_add, ih, List.range_succ W, List.map_append,
      List.flatten_append]
    simp

lemma buildCells_eq_filterMap (y m : ℕ) (a : List (String × ℚ)) :
    buildCells y m a = (List.range (7 * monthWeeks y m)).filterMap
      (fun p => if slot y m p ≠ 0 ∧ p % 7 < 5 then
          some (mkCell y m a (p / 7) (p % 7) (slot y m p)) else none) := by
  rw [range_mul_seven, List.filterMap_flatten, List.map_map]
  unfold buildCells
  rw [monthdayscalendar_eq, buildWeeks_eq]
  apply congrArg
  apply List.map_congr_left
  intro w hw
  rw [Nat.zero_add, buildRow_eq_range7]
  simp only [Function.comp]
  rw [List.filterMap_map]
  apply List.filterMap_congr
  intro i hi
  have hi7 : i < 7 := List.mem_range.mp hi
  have e1 : (7 * w + i) % 7 = i := by omega
  have e2 : (7 * w + i) / 7 = w := by omega
  simp only [Function.comp, e1, e2]

lemma filterMap_if_eq_map_filter {α β : Type} (p : α → Prop) [DecidablePred p]
    (g : α → β) :
    ∀ l : List α,
      l.filterMap (fun i => if p i then some (g i) else none) =
        (l.filter (fun i => decide (p i))).map g := by
  intro l
  induction l with
  | nil => rfl
  | cons x xs ih =>
    rw [List.filterMap_cons, List.filter_cons]
    by_cases hx : p x
    · rw [if_pos hx, if_pos (by simpa using hx)]
      simp only [List.map_cons, ih]
    · rw [if_neg hx, if_neg (by simpa using hx)]
      exact ih

lemma range_filterMap_reindex {β : Type} (f n pad : ℕ) (F G : ℕ → Option β)
    (h1 : ∀ p, p < f → F p = none)
    (h2 : ∀ p, f + n ≤ p → F p = none)
    (h3 : ∀ i, i < n → F (f + i) = G i) :
    (List.range (f + (n + pad))).filterMap F = (List.range n).filterMap G := by
  rw [List.range_add, List.filterMap_append, List.range_add, List.map_append,
    List.map_map, List.filterMap_append, List.filterMap_map, List.filterMap_map]
  simp only [Function.comp_def]
  have e1 : List.filterMap F (List.range f) = [] :=
    List.filterMap_eq_nil_iff.mpr (fun p hp => h1 p (List.mem_range.mp hp))
  have e2 : List.filterMap (fun x => F (f + (n + x))) (List.range pad) = [] :=
    List.filterMap_eq_nil_iff.mpr (fun p _ => h2 _ (by omega))
  have e4 : List.filterMap (fun x => F (f + x)) (List.range n) =
      (List.range n).filterMap G :=
    List.filterMap_congr (fun i hi => h3 i (List.mem_range.mp hi))
  rw [e1, e2, e4, List.append_nil, List.nil_append]

/-- Master characterization of the drawn cells: one cell per day of the
month whose weekday column is Monday through Friday, in day order, placed
at the row and column of the Monday-start layout. -/
lemma buildCells_eq (y m : ℕ) (a : List (String × ℚ)) :
    buildCells y m a =
      ((List.range (daysInMonth y m)).filter
          (fun i => decide ((firstWeekday y m + i) % 7 < 5))).map
        (fun i => mkCell y m a ((firstWeekday y m + i) / 7)
          ((firstWeekday y m + i) % 7) (i + 1)) := by
  rw [buildCells_eq_filterMap, ← filterMap_if_eq_map_filter]
  have hsplit : 7 * monthWeeks y m =
      firstWeekday y m + (daysInMonth y m +
        (7 - (firstWeekday y m + daysInMonth y m) % 7) % 7) := by
    unfold monthWeeks
    omega
  rw [hsplit]
  apply range_filterMap_reindex
  · intro p hp
    rw [slot_of_lt hp]
    simp
  · intro p hp
    rw [slot_of_ge hp]
    simp
  · intro i hi
    rw [slot_mid (by omega) (by omega)]
    have e1 : firstWeekday y m + i - firstWeekday y m + 1 = i + 1 := by omega
    rw [e1]
    by_cases hq : (firstWeekday y m + i) % 7 < 5
    · rw [if_pos ⟨by omega, hq⟩, if_pos hq]
    · rw [if_neg (by omega), if_neg hq]

/-! ## Counting and membership facts about the drawn cells -/

lemma value_of_mem_buildCells {y m : ℕ} {a : List (String × ℚ)} {c : Cell}
    (hc : c ∈ buildCells y m a) :
    c.value = a.lookup (dateStr y m c.day) := by
  rw [buildCells_eq] at hc
  obtain ⟨i, _, rfl⟩ := List.mem_map.mp hc
  rw [mkCell_value, mkCell_day]

lemma countDay_buildCells (y m : ℕ) (a : List (String × ℚ)) (d : ℕ)
    (h1 : 1 ≤ d) (h2 : d ≤ daysInMonth y m) :
    (buildCells y m a).countP (fun c => c.day == d) =
      if weekday y m d < 5 then 1 else 0 := by
  rw [buildCells_eq, List.countP_map]
  have hcg : List.countP
      ((fun c => c.day == d) ∘ fun i => mkCell y m a ((firstWeekday y m + i) / 7)
        ((firstWeekday y m + i) % 7) (i + 1))
      ((List.range (daysInMonth y m)).filter
        (fun i => decide ((firstWeekday y m + i) % 7 < 5))) =
      List.countP (fun i => i == d - 1)
        ((List.range (daysInMonth y m)).filter
          (fun i => decide ((firstWeekday y m + i) % 7 < 5))) := by
    apply List.countP_congr
    intro i _
    simp only [Function.comp_apply, mkCell_day, beq_iff_eq]
    omega
  rw [hcg, ← List.count_eq_countP, weekday_eq y m d h1]
  by_cases hq : (firstWeekday y m + (d - 1)) % 7 < 5
  · rw [if_pos hq, List.count_filter (by simpa using hq)]
    exact List.count_eq_one_of_mem (List.nodup_range _)
      (List.mem_range.mpr (by omega))
  · rw [if_neg hq, List.count_eq_zero.mpr]
    intro hmem
    exact hq (by simpa using (List.mem_filter.mp hmem).2)

lemma countPop_of_isSome (y m : ℕ) (a : List (String × ℚ)) (d : ℕ)
    (h1 : 1 ≤ d) (h2 : d ≤ daysInMonth y m)
    (h3 : (a.lookup (dateStr y m d)).isSome = true) :
    (buildCells y m a).countP (fun c => c.day == d && c.value.isSome) =
      if weekday y m d < 5 then 1 else 0 := by
  rw [← countDay_buildCells y m a d h1 h2]
  apply List.countP_congr
  intro c hc
  simp only [Bool.and_eq_true, beq_iff_eq, and_iff_left_iff_imp]
  intro hd
  rw [value_of_mem_buildCells hc, hd]
  exact h3

lemma countPop_le_countDay (y m : ℕ) (a : List (String × ℚ)) (d : ℕ) :
    (buildCells y m a).countP (fun c => c.day == d && c.value.isSome) ≤
      (buildCells y m a).countP (fun c => c.day == d) := by
  apply List.countP_mono_left
  intro c _ hc
  exact (Bool.and_eq_true _ _ |>.mp hc).1

lemma shape_indep (y m : ℕ) (a a' : List (String × ℚ)) :
    (buildCells y m a).map (fun c => (c.week, c.col, c.day)) =
      (buildCells y m a').map (fun c => (c.week, c.col, c.day)) := by
  rw [buildCells_eq, buildCells_eq, List.map_map, List.map_map]
  apply List.map_congr_left
  intro i _
  simp only [Function.comp_apply, mkCell_week, mkCell_col, mkCell_day]

/-! ## The months list: sortedness, membership, no duplicates -/

lemma mem_insertYM {a x : ℕ × ℕ} :
    ∀ {l : List (ℕ × ℕ)}, a ∈ insertYM x l ↔ (a = x ∨ a ∈ l) := by
  intro l
  induction l with
  | nil => simp [insertYM]
  | cons p rest ih =>
    unfold insertYM
    split_ifs with h1 h2
    · subst h1
      simp only [List.mem_cons]
      tauto
    · simp only [List.mem_cons]
    · simp only [List.mem_cons, ih]
      tauto

lemma sorted_insertYM {x : ℕ × ℕ} :
    ∀ {l : List (ℕ × ℕ)}, l.Sorted ymLt → (insertYM x l).Sorted ymLt := by
  intro l
  induction l with
  | nil =>
    intro _
    simp [insertYM]
  | cons p rest ih =>
    intro hs
    rw [List.sorted_cons] at hs
    unfold insertYM
    split_ifs with h1 h2
    · rw [List.sorted_cons]
      exact hs
    · rw [List.sorted_cons]
      refine ⟨?_, by rw [List.sorted_cons]; exact hs⟩
      intro b hb
      rcases List.mem_cons.mp hb with rfl | hb'
      · exact h2
      · have hpb := hs.1 b hb'
        unfold ymLt at h2 hpb ⊢
        omega
    · rw [List.sorted_cons]
      refine ⟨?_, ih hs.2⟩
      intro b hb
      rcases mem_insertYM.mp hb with rfl | hb'
      · have hne : ¬(b.1 = p.1 ∧ b.2 = p.2) := by
          intro hcomp
          exact h1 (Prod.ext hcomp.1 hcomp.2)
        unfold ymLt at h2 ⊢
        omega
      · exact hs.1 b hb'

lemma sorted_monthsOf (s : Series) : (monthsOf s).Sorted ymLt := by
  unfold monthsOf
  induction s with
  | nil => simp
  | cons e rest ih => exact sorted_insertYM ih

lemma nodup_monthsOf (s : Series) : (monthsOf s).Nodup :=
  List.Pairwise.imp
    (fun hab => by
      intro heq
      subst heq
      unfold ymLt at hab
      omega)
    (sorted_monthsOf s)

lemma mem_monthsOf {s : Series} {e : Date × ℚ} (he : e ∈ s) :
    (e.1.year, e.1.month) ∈ monthsOf s := by
  induction s with
  | nil => cases he
  | cons p rest ih =>
    show _ ∈ insertYM (p.1.year, p.1.month) (monthsOf rest)
    rcases List.mem_cons.mp he with rfl | he'
    · exact mem_insertYM.mpr (Or.inl rfl)
    · exact mem_insertYM.mpr (Or.inr (ih he'))

lemma sum_if_single (F : ℕ × ℕ → ℕ) (x : ℕ × ℕ) :
    ∀ (l : List (ℕ × ℕ)), l.Nodup → x ∈ l →
      (l.map (fun q => if q = x then F q else 0)).sum = F x := by
  intro l
  induction l with
  | nil =>
    intro _ h
    cases h
  | cons p rest ih =>
    intro hnd hx
    rw [List.map_cons, List.sum_cons]
    rcases List.mem_cons.mp hx with rfl | hx'
    · rw [if_pos rfl]
      have hrest : ∀ z ∈ rest.map (fun q => if q = x then F q else 0), z = 0 := by
        intro z hz
        obtain ⟨q, hq, rfl⟩ := List.mem_map.mp hz
        rw [if_neg]
        intro hqx
        subst hqx
        exact (List.nodup_cons.mp hnd).1 hq
      rw [List.sum_eq_zero hrest]
      omega
    · rw [if_neg, ih (List.nodup_cons.mp hnd).2 hx', Nat.zero_add]
      intro hpx
      subst hpx
      exact (List.nodup_cons.mp hnd).1 hx'

lemma lookup_isSome_of_mem :
    ∀ {l : List (String × ℚ)} {k : String} {v : ℚ},
      (k, v) ∈ l → (l.lookup k).isSome = true := by
  intro l
  induction l with
  | nil =>
    intro k v h
    cases h
  | cons p rest ih =>
    intro k v h
    obtain ⟨k', v'⟩ := p
    by_cases hk : k = k'
    · subst hk
      simp [List.lookup_cons]
    · have hbeq : (k == k') = false := beq_eq_false_iff_ne.mpr hk
      rcases List.mem_cons.mp h with heq | h'
      · cases heq
        exact absurd rfl hk
      · simpa [List.lookup_cons, hbeq] using ih h'

lemma lookup_eq_none_of_not_mem_keys :
    ∀ {l : List (String × ℚ)} {k : String},
      k ∉ l.map Prod.fst → l.lookup k = none := by
  intro l
  induction l with
  | nil =>
    intro k _
    rfl
  | cons p rest ih =>
    intro k hk
    obtain ⟨k', v'⟩ := p
    rw [List.map_cons, List.mem_cons] at hk
    push_neg at hk
    have hbeq : (k == k') = false := beq_eq_false_iff_ne.mpr hk.1
    simpa [List.lookup_cons, hbeq] using ih hk.2

/-! ## Injectivity of the date-string key on valid day numbers -/

lemma pad2_inj : ∀ a < 32, ∀ b < 32, pad2 a = pad2 b → a = b := by
  unfold pad2
  decide

lemma dateStr_inj_day {y m d d' : ℕ} (hd : d ≤ 31) (hd' : d' ≤ 31)
    (h : dateStr y m d = dateStr y m d') : d = d' := by
  unfold dateStr at h
  have hdata := congrArg String.data h
  simp only [String.data_append] at hdata
  have hpad : (pad2 d).data = (pad2 d').data := List.append_cancel_left hdata
  exact pad2_inj d (by omega) d' (by omega) (String.ext hpad)

/-! ## The values placed in a month grid are the month slice's values -/

lemma cellValuesOf_eq (y m : ℕ) (a : List (String × ℚ)) :
    cellValuesOf (buildCells y m a) =
      ((List.range (daysInMonth y m)).filter
          (fun i => decide ((firstWeekday y m + i) % 7 < 5))).filterMap
        (fun i => a.lookup (dateStr y m (i + 1))) := by
  unfold cellValuesOf
  rw [buildCells_eq, List.filterMap_map]
  apply List.filterMap_congr
  intro i _
  simp only [Function.comp_apply]
  rw [mkCell_value]

lemma perm_filterMap_update :
    ∀ (l : List ℕ), l.Nodup → ∀ (i0 : ℕ), i0 ∈ l →
      ∀ (F G : ℕ → Option ℚ) (v : ℚ), F i0 = some v → G i0 = none →
        (∀ i ∈ l, i ≠ i0 → F i = G i) →
        (l.filterMap F).Perm (v :: l.filterMap G) := by
  intro l
  induction l with
  | nil =>
    intro _ i0 hi0
    cases hi0
  | cons x rest ih =>
    intro hnd i0 hi0 F G v hF hG hFG
    rcases List.mem_cons.mp hi0 with rfl | hx'
    · rw [List.filterMap_cons_some hF, List.filterMap_cons_none hG]
      have hcongr : rest.filterMap F = rest.filterMap G := by
        apply List.filterMap_congr
        intro i hi
        refine hFG i (List.mem_cons_of_mem _ hi) ?_
        intro heq
        subst heq
        exact (List.nodup_cons.mp hnd).1 hi
      rw [hcongr]
    · have hnd' := (List.nodup_cons.mp hnd).2
      have hxne : x ≠ i0 := by
        rintro rfl
        exact (List.nodup_cons.mp hnd).1 hx'
      have hFx : F x = G x := hFG x (List.mem_cons.mpr (Or.inl rfl)) hxne
      have hrec := ih hnd' i0 hx' F G v hF hG
        (fun i hi hne => hFG i (List.mem_cons_of_mem _ hi) hne)
      cases hGx : G x with
      | none =>
        rw [List.filterMap_cons_none (hFx.trans hGx), List.filterMap_cons_none hGx]
        exact hrec
      | some w =>
        rw [List.filterMap_cons_some (hFx.trans hGx), List.filterMap_cons_some hGx]
        exact (hrec.cons w).trans (List.Perm.swap v w _)

lemma cellValues_perm (y m : ℕ) :
    ∀ (df : Series),
      (∀ e ∈ df, e.1.year = y ∧ e.1.month = m ∧ validDate e.1 ∧
        weekday e.1.year e.1.month e.1.day < 5) →
      (df.map (fun e => e.1.day)).Nodup →
      (cellValuesOf (buildCells y m (assocOf df))).Perm
        (df.map (fun e => e.2)) := by
  intro df
  induction df with
  | nil =>
    intro _ _
    rw [cellValuesOf_eq]
    have hnil : ∀ i ∈ (List.range (daysInMonth y m)).filter
        (fun i => decide ((firstWeekday y m + i) % 7 < 5)),
        (assocOf ([] : Series)).lookup (dateStr y m (i + 1)) = none :=
      fun i _ => rfl
    rw [List.filterMap_eq_nil_iff.mpr hnil]
    simp
  | cons e rest ih =>
    intro hall hnd
    have hndm : e.1.day ∉ List.map (fun e => e.1.day) rest ∧
        (List.map (fun e => e.1.day) rest).Nodup := by
      rw [List.map_cons] at hnd
      exact List.nodup_cons.mp hnd
    have he := hall e (List.mem_cons.mpr (Or.inl rfl))
    obtain ⟨hey, hem, hev, hew⟩ := he
    have hd1 : 1 ≤ e.1.day := hev.2.2.1
    have hdn : e.1.day ≤ daysInMonth y m := by
      have := hev.2.2.2
      rwa [hey, hem] at this
    have hd31 : e.1.day ≤ 31 := le_trans hdn (daysInMonth_le y m)
    have hkey : assocOf (e :: rest) =
        (dateStr y m e.1.day, e.2) :: assocOf rest := by
      unfold assocOf
      rw [List.map_cons, hey, hem]
    rw [cellValuesOf_eq, hkey]
    have hi0mem : e.1.day - 1 ∈ (List.range (daysInMonth y m)).filter
        (fun i => decide ((firstWeekday y m + i) % 7 < 5)) := by
      rw [List.mem_filter]
      refine ⟨List.mem_range.mpr (by omega), ?_⟩
      have hwd : weekday y m e.1.day < 5 := by
        rw [← hey, ← hem]
        exact hew
      rw [weekday_eq y m e.1.day hd1] at hwd
      simpa using hwd
    have hF : ((dateStr y m e.1.day, e.2) :: assocOf rest).lookup
        (dateStr y m (e.1.day - 1 + 1)) = some e.2 := by
      have heq : e.1.day - 1 + 1 = e.1.day := by omega
      rw [heq, List.lookup_cons]
      simp
    have hG : (assocOf rest).lookup (dateStr y m (e.1.day - 1 + 1)) = none := by
      have heq : e.1.day - 1 + 1 = e.1.day := by omega
      rw [heq]
      apply lookup_eq_none_of_not_mem_keys
      intro hmem
      obtain ⟨p, hp, hpe⟩ := List.mem_map.mp hmem
      obtain ⟨e', he', rfl⟩ := List.mem_map.mp hp
      have he'h := hall e' (List.mem_cons_of_mem _ he')
      obtain ⟨he'y, he'm, he'v, _⟩ := he'h
      simp only [he'y, he'm] at hpe
      have hd'31 : e'.1.day ≤ 31 := by
        have := he'v.2.2.2
        rw [he'y, he'm] at this
        exact le_trans this (daysInMonth_le y m)
      have hdd : e'.1.day = e.1.day := dateStr_inj_day hd'31 hd31 hpe
      apply hndm.1
      rw [← hdd]
      exact List.mem_map.mpr ⟨e', he', rfl⟩
    have hFG : ∀ i ∈ (List.range (daysInMonth y m)).filter
        (fun i => decide ((firstWeekday y m + i) % 7 < 5)),
        i ≠ e.1.day - 1 →
        ((dateStr y m e.1.day, e.2) :: assocOf rest).lookup
          (dateStr y m (i + 1)) =
        (assocOf rest).lookup (dateStr y m (i + 1)) := by
      intro i hi hine
      have hi31 : i + 1 ≤ 31 := by
        have := List.mem_range.mp (List.mem_filter.mp hi).1
        have := daysInMonth_le y m
        omega
      have hne : dateStr y m (i + 1) ≠ dateStr y m e.1.day := by
        intro hcontra
        have := dateStr_inj_day hi31 hd31 hcontra
        omega
      rw [List.lookup_cons]
      simp [beq_eq_false_iff_ne.mpr hne]
    have hperm := perm_filterMap_update _
      (List.Nodup.filter _ (List.nodup_range _)) (e.1.day - 1) hi0mem
      (fun i => ((dateStr y m e.1.day, e.2) :: assocOf rest).lookup
        (dateStr y m (i + 1)))
      (fun i => (assocOf rest).lookup (dateStr y m (i + 1)))
      e.2 hF hG hFG
    refine hperm.trans ?_
    rw [List.map_cons]
    apply List.Perm.cons
    have hrest := ih (fun e' he' => hall e' (List.mem_cons_of_mem _ he')) hndm.2
    rw [cellValuesOf_eq] at hrest
    exact hrest

lemma meanOfVals_eq_of_perm {df : Series} {l : List ℚ}
    (h : l.Perm (df.map (fun e => e.2))) : meanOfVals l = meanOf df := by
  unfold meanOfVals meanOf
  have hlen : l.length = df.length := by
    rw [h.length_eq, List.length_map]
  have hsum : l.sum = (df.map (fun e => e.2)).sum := h.sum_eq
  by_cases hd : df.isEmpty
  · rw [if_pos hd, if_pos]
    rw [List.isEmpty_iff] at hd ⊢
    subst hd
    exact List.length_eq_zero.mp (by simpa using hlen)
  · rw [if_neg hd, if_neg]
    · rw [hsum, hlen]
    · rw [List.isEmpty_iff] at hd ⊢
      intro hl
      subst hl
      exact hd (List.length_eq_zero.mp (by simpa using hlen.symm))

/-! ## Saturation of the colormap lookup-table index -/

lemma lutIndex_of_one_le {t : ℚ} (h : 1 ≤ t) : lutIndex t = 255 := by
  unfold lutIndex
  have h1 : (256 : ℤ) ≤ ⌊256 * t⌋ := by
    apply Int.le_floor.mpr
    push_cast
    linarith
  omega

lemma lutIndex_of_nonpos {t : ℚ} (h : t ≤ 0) : lutIndex t = 0 := by
  unfold lutIndex
  have h1 : ⌊256 * t⌋ ≤ 0 := by
    have : ⌊256 * t⌋ ≤ ⌊(0 : ℚ)⌋ := Int.floor_le_floor (by linarith)
    simpa using this
  omega

/-! ## Claim theorems -/

/-- Claim C1: every entry of the series whose weekday is Monday through
Friday is placed in exactly one populated cell across the full set of
month grids of the window, a Saturday or Sunday entry is placed in none,
and the week-row, column and day-number layout of a grid does not depend
on which dates carry data, so a weekend entry leaves every grid's shape
unchanged. -/
theorem C1_unique_cell_per_weekday_date (s : Series) (e : Date × ℚ)
    (hes : e ∈ s) (hval : validDate e.1) :
    ((weekday e.1.year e.1.month e.1.day < 5 → popCountDate s e.1 = 1) ∧
      (5 ≤ weekday e.1.year e.1.month e.1.day → popCountDate s e.1 = 0)) ∧
    (∀ (y m : ℕ) (a a' : List (String × ℚ)),
      (buildCells y m a).map (fun c => (c.week, c.col, c.day)) =
        (buildCells y m a').map (fun c => (c.week, c.col, c.day))) := by
  constructor
  · have hx : (e.1.year, e.1.month) ∈ monthsOf s := mem_monthsOf hes
    have hcount := sum_if_single
      (fun ym => (buildCells ym.1 ym.2 (assocOf (monthSlice s ym.1 ym.2))).countP
        (fun c => c.day == e.1.day && c.value.isSome))
      (e.1.year, e.1.month) (monthsOf s) (nodup_monthsOf s) hx
    have hpop : popCountDate s e.1 = (buildCells e.1.year e.1.month
        (assocOf (monthSlice s e.1.year e.1.month))).countP
        (fun c => c.day == e.1.day && c.value.isSome) := by
      unfold popCountDate
      exact hcount
    have hslice : e ∈ monthSlice s e.1.year e.1.month := by
      unfold monthSlice
      rw [List.mem_filter]
      exact ⟨hes, by simp⟩
    have hkey : (dateStr e.1.year e.1.month e.1.day, e.2) ∈
        assocOf (monthSlice s e.1.year e.1.month) :=
      List.mem_map.mpr ⟨e, hslice, rfl⟩
    have hsome := lookup_isSome_of_mem hkey
    constructor
    · intro hwd
      rw [hpop, countPop_of_isSome _ _ _ _ hval.2.2.1 hval.2.2.2 hsome,
        if_pos hwd]
    · intro hwd
      rw [hpop]
      have h0 := countDay_buildCells e.1.year e.1.month
        (assocOf (monthSlice s e.1.year e.1.month)) e.1.day hval.2.2.1 hval.2.2.2
      rw [if_neg (by omega)] at h0
      have hle := countPop_le_countDay e.1.year e.1.month
        (assocOf (monthSlice s e.1.year e.1.month)) e.1.day
      omega
  · exact fun y m a a' => shape_indep y m a a'

theorem C1_unique_cell_per_weekday_date_witness :
    popCountDate [(⟨2024, 1, 1⟩, 5/2), (⟨2024, 1, 6⟩, -3)] ⟨2024, 1, 1⟩ = 1 ∧
    popCountDate [(⟨2024, 1, 1⟩, 5/2), (⟨2024, 1, 6⟩, -3)] ⟨2024, 1, 6⟩ = 0 :=
  ⟨(C1_unique_cell_per_weekday_date _ (⟨2024, 1, 1⟩, 5/2)
      (by decide) (by decide)).1.1 (by decide),
   (C1_unique_cell_per_weekday_date _ (⟨2024, 1, 6⟩, -3)
      (by decide) (by decide)).1.2 (by decide)⟩

/-- Claim C2 counterexample: the Monday-start week layout of February
2023 (which begins on a Wednesday) has five week rows, not the four rows
the claim asserts. -/
theorem C2_feb2023_has_five_weeks :
    (monthdayscalendar 2023 2).length = 5 ∧
    (monthdayscalendar 2023 2).length ≠ 4 := by
  constructor <;> decide

/-- Claim C2 amended: the week-row, column and day layout of a month grid
is a function of (year, month) alone, independent of which dates carry
data; an empty series for February 2023 still yields the fully-shaped
five-week grid in which every day cell is a white no-data cell, and the
aggregate line shows nan. -/
theorem C2_shape_from_year_month_only :
    (∀ (y m : ℕ) (a a' : List (String × ℚ)),
      (buildCells y m a).map (fun c => (c.week, c.col, c.day)) =
        (buildCells y m a').map (fun c => (c.week, c.col, c.day))) ∧
    (monthdayscalendar 2023 2).length = 5 ∧
    (∀ c ∈ buildCells 2023 2 [], c.value = none ∧
      c.color = ColorSpec.named "white" ∧ c.label = "") ∧
    avgText [] = "Avg Daily Return:" ++ "\n" ++ "nan" ++ "%" :=
  ⟨shape_indep, by decide, by decide, by decide⟩

theorem C2_shape_from_year_month_only_witness :
    mkCell 2023 2 [] 0 2 1 ∈ buildCells 2023 2 [] ∧
    ((mkCell 2023 2 [] 0 2 1).value = none ∧
      (mkCell 2023 2 [] 0 2 1).color = ColorSpec.named "white" ∧
      (mkCell 2023 2 [] 0 2 1).label = "") :=
  ⟨by decide, C2_shape_from_year_month_only.2.2.1 (mkCell 2023 2 [] 0 2 1)
    (by decide)⟩

/-- Claim C3: every drawn cell carries a day of the month placed at its
weekday column; when the cell's ISO date is found in the values mapping
the cell holds that day number, the looked-up value, the mapped color and
the two-decimal percent label, and when it is not found the cell is a
white no-data cell with an empty label. The single entry 2024-01-01 = 2.5
yields exactly one populated cell in January 2024, at week 0 and column 0,
with label 1 newline 2.50 percent. -/
theorem C3_cell_contents :
    (∀ (y m : ℕ) (a : List (String × ℚ)) (c : Cell), c ∈ buildCells y m a →
      1 ≤ c.day ∧ c.day ≤ daysInMonth y m ∧ c.col = weekday y m c.day ∧
      c.col < 5 ∧
      (∀ v : ℚ, a.lookup (dateStr y m c.day) = some v →
        c.value = some v ∧ c.color = ColorSpec.rgb (mapColor v) ∧
        c.label = toString c.day ++ "\n" ++ fmt2 v ++ "%") ∧
      (a.lookup (dateStr y m c.day) = none →
        c.value = none ∧ c.color = ColorSpec.named "white" ∧ c.label = "")) ∧
    (buildCells 2024 1 [(dateStr 2024 1 1, 5/2)]).filter
        (fun c => c.value.isSome) =
      [{ week := 0, col := 0, day := 1, value := some (5/2)
         color := ColorSpec.rgb { r := 42/85, g := 1313/1700, b := 42/85 }
         label := "1" ++ "\n" ++ "2.50" ++ "%" }] := by
  constructor
  · intro y m a c hc
    rw [buildCells_eq] at hc
    obtain ⟨i, hi, rfl⟩ := List.mem_map.mp hc
    have hif := List.mem_filter.mp hi
    have hin : i < daysInMonth y m := List.mem_range.mp hif.1
    have hq : (firstWeekday y m + i) % 7 < 5 := by simpa using hif.2
    simp only [mkCell_day, mkCell_col]
    refine ⟨by omega, by omega, ?_, hq, ?_, ?_⟩
    · rw [weekday_eq y m (i + 1) (by omega)]
      omega
    · intro v hv
      rw [mkCell_of_lookup_some _ _ hv]
      exact ⟨rfl, rfl, rfl⟩
    · intro hv
      rw [mkCell_of_lookup_none _ _ hv]
      exact ⟨rfl, rfl, rfl⟩
  · decide

theorem C3_cell_contents_witness :
    ({ week := 0, col := 0, day := 1, value := some (5/2)
       color := ColorSpec.rgb { r := 42/85, g := 1313/1700, b := 42/85 }
       label := "1" ++ "\n" ++ "2.50" ++ "%" } : Cell).value = some (5/2) ∧
    ({ week := 0, col := 0, day := 1, value := some (5/2)
       color := ColorSpec.rgb { r := 42/85, g := 1313/1700, b := 42/85 }
       label := "1" ++ "\n" ++ "2.50" ++ "%" } : Cell).color =
      ColorSpec.rgb (mapColor (5/2)) ∧
    ({ week := 0, col := 0, day := 1, value := some (5/2)
       color := ColorSpec.rgb { r := 42/85, g := 1313/1700, b := 42/85 }
       label := "1" ++ "\n" ++ "2.50" ++ "%" } : Cell).label =
      toString 1 ++ "\n" ++ fmt2 (5/2) ++ "%" :=
  (C3_cell_contents.1 2024 1 [(dateStr 2024 1 1, 5/2)] _ (by decide)).2.2.2.2.1
    (5/2) (by decide)

/-- Claim C4: values above the color domain maximum (and symmetrically
below the minimum) map to the color of the nearest domain endpoint with
no error, while a found cell's label always shows the true unclipped
value even though its facecolor is the clipped one. -/
theorem C4_out_of_domain_clipped (v : ℚ) :
    (retMax < v → mapColor v = mapColor retMax) ∧
    (v < retMin → mapColor v = mapColor retMin) ∧
    (∀ (y m w i d : ℕ) (a : List (String × ℚ)),
      a.lookup (dateStr y m d) = some v →
      (mkCell y m a w i d).label = toString d ++ "\n" ++ fmt2 v ++ "%" ∧
      (mkCell y m a w i d).color = ColorSpec.rgb (mapColor v)) := by
  refine ⟨?_, ?_, ?_⟩
  · intro h
    unfold retMax at h
    have hcl : lutPos (normVal v) = lutPos (normVal retMax) := by
      unfold lutPos
      have h1 : lutIndex (normVal v) = 255 := by
        apply lutIndex_of_one_le
        unfold normVal retMin retMax
        rw [le_div_iff (by norm_num)]
        linarith
      have h2 : lutIndex (normVal retMax) = 255 := by
        apply lutIndex_of_one_le
        unfold normVal retMin retMax
        norm_num
      rw [h1, h2]
    unfold mapColor heatmapCmap
    rw [hcl]
  · intro h
    unfold retMin at h
    have hcl : lutPos (normVal v) = lutPos (normVal retMin) := by
      unfold lutPos
      have h1 : lutIndex (normVal v) = 0 := by
        apply lutIndex_of_nonpos
        unfold normVal retMin retMax
        rw [div_nonpos_iff]
        right
        constructor <;> linarith
      have h2 : lutIndex (normVal retMin) = 0 := by
        apply lutIndex_of_nonpos
        unfold normVal retMin retMax
        norm_num
      rw [h1, h2]
    unfold mapColor heatmapCmap
    rw [hcl]
  · intro y m w i d a hv
    rw [mkCell_of_lookup_some _ _ hv]
    exact ⟨rfl, rfl⟩

theorem C4_out_of_domain_clipped_witness :
    mapColor 7 = mapColor retMax ∧
    mapColor (-7) = mapColor retMin ∧
    (mkCell 2024 3 [(dateStr 2024 3 15, 7)] 2 4 15).label =
      toString 15 ++ "\n" ++ fmt2 7 ++ "%" ∧
    fmt2 (7 : ℚ) = "7.00" ∧
    (mkCell 2024 3 [(dateStr 2024 3 15, 7)] 2 4 15).color =
      ColorSpec.rgb (mapColor 7) :=
  ⟨(C4_out_of_domain_clipped 7).1 (by norm_num [retMax]),
   (C4_out_of_domain_clipped (-7)).2.1 (by norm_num [retMin]),
   ((C4_out_of_domain_clipped 7).2.2 2024 3 2 4 15 _ (by decide)).1,
   by decide,
   ((C4_out_of_domain_clipped 7).2.2 2024 3 2 4 15 _ (by decide)).2⟩

/-- Claim C5 counterexample: value 0 normalizes to position one half, but
the N = 256 colormap looks that up at table index floor(256 * 0.5) = 128,
the ramp position 128/255 just past the white midpoint, so the program's
color for value 0 is (254/255, 1697/1700, 254/255) — and for the variant
stop list (4298/4335, 764/765, 4298/4335) — not the pure white the claim
asserts. -/
theorem C5_zero_quantizes_off_white :
    normVal 0 = 1/2 ∧
    lutIndex (normVal 0) = 128 ∧
    mapColor 0 = { r := 254/255, g := 1697/1700, b := 254/255 } ∧
    mapColor 0 ≠ { r := 1, g := 1, b := 1 } ∧
    customCmap (normVal 0) = { r := 4298/4335, g := 764/765, b := 4298/4335 } ∧
    customCmap (normVal 0) ≠ { r := 1, g := 1, b := 1 } := by
  decide

/-- Claim C5 amended: value 0 normalizes to position one half, where both
configured stop lists place pure white — the continuous channel ramps are
exactly 1 there — but the 256-entry lookup table evaluates value 0 at
table index 128, giving a color within 3/255 of pure white per channel
rather than pure white itself; the two domain endpoints map exactly to
the configured extreme red and extreme green colors of the stop lists. -/
theorem C5_white_stop_at_zero_extremes_at_ends :
    normVal 0 = 1/2 ∧
    (interpSegs cdictRed (1/2) = 1 ∧ interpSegs cdictGreen (1/2) = 1 ∧
      interpSegs cdictBlue (1/2) = 1) ∧
    (interpSegs stopsRed (1/2) = 1 ∧ interpSegs stopsGreen (1/2) = 1 ∧
      interpSegs stopsBlue (1/2) = 1) ∧
    (1 - (mapColor 0).r ≤ 3/255 ∧ 1 - (mapColor 0).g ≤ 3/255 ∧
      1 - (mapColor 0).b ≤ 3/255) ∧
    (1 - (customCmap (normVal 0)).r ≤ 3/255 ∧
      1 - (customCmap (normVal 0)).g ≤ 3/255 ∧
      1 - (customCmap (normVal 0)).b ≤ 3/255) ∧
    mapColor retMin = { r := 0.55, g := 0, b := 0 } ∧
    mapColor retMax = { r := 0, g := 0.55, b := 0 } ∧
    customCmap (normVal retMin) = { r := 139/255, g := 0, b := 0 } ∧
    customCmap (normVal retMax) = { r := 0, g := 100/255, b := 0 } := by
  decide

/-- Claim C6 counterexample: for the single Saturday entry 2024-01-06 = 4
the month grid places no value in any cell, yet the aggregate line shows
4.00 percent, the mean over the whole month slice, not the not-a-number
that the mean of the (empty) set of placed cell values would give. -/
theorem C6_weekend_average_counterexample :
    cellValuesOf (buildCells 2024 1
        (assocOf (monthSlice [(⟨2024, 1, 6⟩, 4)] 2024 1))) = [] ∧
    avgText (monthSlice [(⟨2024, 1, 6⟩, 4)] 2024 1) =
      "Avg Daily Return:" ++ "\n" ++ "4.00" ++ "%" ∧
    ("Avg Daily Return:" ++ "\n" ++ "4.00" ++ "%" : String) ≠
      "Avg Daily Return:" ++ "\n" ++ "nan" ++ "%" := by
  refine ⟨by decide, by decide, by decide⟩

/-- Claim C6 amended: the aggregate line shows the arithmetic mean of the
month slice of the series, formatted to two decimals with a percent
suffix, and nan when the slice is empty; whenever the slice consists of
valid, duplicate-free weekday dates of that month, the values placed in
the grid cells are a permutation of the slice values, so the displayed
aggregate coincides with the mean of the placed cell values. -/
theorem C6_aggregate_is_slice_mean (y m : ℕ) (df : Series)
    (hall : ∀ e ∈ df, e.1.year = y ∧ e.1.month = m ∧ validDate e.1 ∧
      weekday e.1.year e.1.month e.1.day < 5)
    (hnd : (df.map (fun e => e.1.day)).Nodup) :
    (cellValuesOf (buildCells y m (assocOf df))).Perm
      (df.map (fun e => e.2)) ∧
    meanOfVals (cellValuesOf (buildCells y m (assocOf df))) = meanOf df ∧
    (df = [] → avgText df = "Avg Daily Return:" ++ "\n" ++ "nan" ++ "%") ∧
    (∀ q : ℚ, meanOf df = some q →
      avgText df = "Avg Daily Return:" ++ "\n" ++ fmt2 q ++ "%") := by
  have hperm := cellValues_perm y m df hall hnd
  refine ⟨hperm, meanOfVals_eq_of_perm hperm, ?_, ?_⟩
  · rintro rfl
    rfl
  · intro q hq
    unfold avgText
    rw [hq]

theorem C6_aggregate_is_slice_mean_witness :
    meanOfVals (cellValuesOf (buildCells 2024 1
        (assocOf [(⟨2024, 1, 1⟩, 5/2), (⟨2024, 1, 2⟩, -3)]))) =
      meanOf [(⟨2024, 1, 1⟩, 5/2), (⟨2024, 1, 2⟩, -3)] ∧
    avgText [(⟨2024, 1, 1⟩, 5/2), (⟨2024, 1, 2⟩, -3)] =
      "Avg Daily Return:" ++ "\n" ++ fmt2 (-1/4) ++ "%" :=
  ⟨(C6_aggregate_is_slice_mean 2024 1 _ (by decide) (by decide)).2.1,
   (C6_aggregate_is_slice_mean 2024 1 _ (by decide) (by decide)).2.2.2
     (-1/4) (by decide)⟩

/-- Claim C7: the months list handed to the panel loop is strictly
ascending in (year, month); the composed flat axes list has one slot per
grid position of the ceil(months / 4) by 4 subplot matrix, month i lands
at matrix position (i / 4, i % 4), and every position past the last month
is a blank turned-off axes. -/
theorem C7_panel_layout (s : Series) :
    (monthsOf s).Sorted ymLt ∧
    (composeAxes s).length = nRowsOf (monthsOf s).length * 4 ∧
    (∀ i : ℕ, i < (monthsOf s).length →
      axesMatrix s (i / 4) (i % 4) = panelFor s ((monthsOf s).getD i (0, 0))) ∧
    ⌈((monthsOf s).length : ℚ) / 4⌉ = (nRowsOf (monthsOf s).length : ℤ) ∧
    (∀ j : ℕ, (monthsOf s).length ≤ j → j < nRowsOf (monthsOf s).length * 4 →
      (composeAxes s).getD j blankAxes = blankAxes) := by
  have hlen : (composeAxes s).length = nRowsOf (monthsOf s).length * 4 := by
    unfold composeAxes
    rw [List.length_map, List.length_range]
  refine ⟨sorted_monthsOf s, hlen, ?_, ?_, ?_⟩
  · intro i hi
    unfold axesMatrix
    have hidx : i / 4 * 4 + i % 4 = i := by omega
    rw [hidx]
    have hlt : i < nRowsOf (monthsOf s).length * 4 := by
      unfold nRowsOf
      omega
    unfold composeAxes
    rw [List.getD_eq_getElem _ _ (by
        rw [List.length_map, List.length_range]
        exact hlt),
      List.getElem_map, List.getElem_range, if_pos hi]
  · have h1 : (monthsOf s).length ≤ 4 * nRowsOf (monthsOf s).length := by
      unfold nRowsOf
      omega
    have h2 : 4 * nRowsOf (monthsOf s).length ≤ (monthsOf s).length + 3 := by
      unfold nRowsOf
      omega
    rw [Int.ceil_eq_iff]
    have hc1 : ((monthsOf s).length : ℚ) ≤
        4 * (nRowsOf (monthsOf s).length : ℚ) := by
      exact_mod_cast h1
    have hc2 : 4 * (nRowsOf (monthsOf s).length : ℚ) ≤
        ((monthsOf s).length : ℚ) + 3 := by
      exact_mod_cast h2
    constructor
    · rw [lt_div_iff (by norm_num)]
      push_cast
      linarith
    · rw [div_le_iff (by norm_num)]
      push_cast
      linarith
  · intro j hj hjlt
    unfold composeAxes
    rw [List.getD_eq_getElem _ _ (by
        rw [List.length_map, List.length_range]
        exact hjlt),
      List.getElem_map, List.getElem_range, if_neg (by omega)]

theorem C7_panel_layout_witness :
    1 < (monthsOf [(⟨2024, 1, 1⟩, 1), (⟨2024, 2, 1⟩, 2)]).length ∧
    axesMatrix [(⟨2024, 1, 1⟩, 1), (⟨2024, 2, 1⟩, 2)] 0 1 =
      panelFor [(⟨2024, 1, 1⟩, 1), (⟨2024, 2, 1⟩, 2)]
        ((monthsOf [(⟨2024, 1, 1⟩, 1), (⟨2024, 2, 1⟩, 2)]).getD 1 (0, 0)) ∧
    (composeAxes [(⟨2024, 1, 1⟩, 1), (⟨2024, 2, 1⟩, 2)]).getD 2 blankAxes =
      blankAxes := by
  refine ⟨by decide, ?_, ?_⟩
  · exact (C7_panel_layout _).2.2.1 1 (by decide)
  · exact (C7_panel_layout _).2.2.2.2 2 (by decide) (by decide)

/-- Claim C8: a downloaded series with zero entries makes the rendering
pass stop at the empty-data guard with the printed message: the result
carries no months list, no panel, and is never the ok outcome, so no
partial image exists. -/
theorem C8_empty_input_aborts :
    renderPass [] =
      Except.error "No data fetched. Check the ticker symbol and try again." ∧
    ∀ out : List (ℕ × ℕ) × List Axes, renderPass [] ≠ Except.ok out := by
  constructor
  · rfl
  · intro out h
    exact Except.noConfusion h

theorem C8_empty_input_aborts_witness :
    renderPass [] ≠ Except.ok ([], []) :=
  C8_empty_input_aborts.2 ([], [])

/-- Claim C9: the value-to-color mapping is a pure function of the value:
equal inputs under the fixed domain and stop list give the identical
output color. -/
theorem C9_color_map_deterministic (v1 v2 : ℚ) (h : v1 = v2) :
    mapColor v1 = mapColor v2 := by
  rw [h]

theorem C9_color_map_deterministic_witness :
    (5/2 : ℚ) = 5/2 ∧ mapColor (5/2) = mapColor (5/2) :=
  ⟨rfl, C9_color_map_deterministic (5/2) (5/2) rfl⟩

/-- Claim C10: drawing a month panel clears the target axes first, so
drawing the same (year, month, values) twice in a row leaves the axes in
exactly the state of drawing it once. -/
theorem C10_draw_calendar_idempotent (y m : ℕ) (a : List (String × ℚ))
    (ax : Axes) :
    drawCalendar y m a (drawCalendar y m a ax) = drawCalendar y m a ax := rfl
